import Mathlib

/-!
Verification model of the PDFextractor repository (src/extract.py,
src/ocr.py, src/batch_ocr.py).

The Python sources are shallowly embedded: pure string manipulation is
translated to executable Lean functions over `List Char` / `String`;
interactions with the external libraries (pdfplumber, fitz/PyMuPDF,
pytesseract, pandas) are modelled by explicit environment records that
carry the values those libraries would return, so each script becomes a
pure function of its input path and environment.
-/

/-! ## Basic character and string helpers (Python semantics) -/

/-- Python whitespace class for `str.strip` and the regex class backslash-s,
restricted to ASCII: space, tab, newline, carriage return, vertical tab,
form feed.  All inputs considered in this development are ASCII. -/
def isWS (c : Char) : Bool :=
  c = ' ' || c = '\t' || c = '\n' || c = '\r' || c.toNat = 11 || c.toNat = 12

/-- Characters matched by the regex class backslash-d (ASCII digits). -/
def isDigitC (c : Char) : Bool := c.isDigit

/-- Length of the maximal run of characters satisfying `p` at the front. -/
def runLen (p : Char → Bool) : List Char → Nat
  | [] => 0
  | c :: cs => if p c then runLen p cs + 1 else 0

/-- Python `str.strip()` on a character list (ASCII whitespace). -/
def stripWS (cs : List Char) : List Char :=
  ((cs.dropWhile isWS).reverse.dropWhile isWS).reverse

/-- Python `str.strip()`. -/
def pyStrip (s : String) : String := String.mk (stripWS s.toList)

/-- Does `s` start with `pat`? (list version of Python startswith). -/
def startsWith : List Char → List Char → Bool
  | _, [] => true
  | [], _ :: _ => false
  | c :: cs, d :: ds => c = d && startsWith cs ds

/-- Python substring test `pat in s` on character lists. -/
def containsSub : List Char → List Char → Bool
  | [], pat => pat.isEmpty
  | c :: cs, pat => startsWith (c :: cs) pat || containsSub cs pat

/-- Python substring test `pat in s` on strings. -/
def strContains (s pat : String) : Bool := containsSub s.toList pat.toList

/-- Remove every occurrence of `pat` (Python `s.replace(pat, "")`),
scanning left to right.  `fuel` bounds the recursion; callers pass the
length of the scanned list, which suffices because each step consumes at
least one character when `pat` is non-empty. -/
def removeSubAux (pat : List Char) : Nat → List Char → List Char
  | 0, cs => cs
  | _ + 1, [] => []
  | fuel + 1, c :: cs =>
    if startsWith (c :: cs) pat && !pat.isEmpty then
      removeSubAux pat fuel ((c :: cs).drop pat.length)
    else
      c :: removeSubAux pat fuel cs

/-- Python `s.replace(pat, "")` on strings. -/
def strRemove (s pat : String) : String :=
  String.mk (removeSubAux pat.toList s.toList.length s.toList)

/-- Python `str.split(sep)` for a single-character separator (structural,
so that concrete instances reduce in the kernel). -/
def splitOnChar (sep : Char) : List Char → List (List Char)
  | [] => [[]]
  | c :: cs =>
    let r := splitOnChar sep cs
    if c = sep then [] :: r
    else (c :: r.headD []) :: r.tail

/-- Python `os.path.basename` for POSIX paths: the text after the last
slash. -/
def basename (p : String) : String :=
  String.mk ((splitOnChar '/' p.toList).getLastD [])

/-! ## OCR tools: src/ocr.py and src/batch_ocr.py

Both files define `convert_to_searchable_pdf(input_pdf_path)`.  The fitz
and pytesseract calls are modelled by an environment: whether the file
exists, what reading the first page yields (`none` models an exception
raised while opening or reading), and how the render-plus-tesseract
phase would end if reached. -/

/-- Outcome of the OCR phase (the second try block of either script):
tesseract runs and the output file is written, or
`pytesseract.TesseractNotFoundError` is raised, or some other exception
is raised. -/
inductive OcrRun
  | success
  | tesseractMissing
  | failure
deriving DecidableEq

/-- Environment for one `convert_to_searchable_pdf` call. -/
structure OcrEnv where
  fileExists : Bool
  /-- Text of the first page as returned by `page.get_text()`; `none`
  models an exception raised by `fitz.open`/`doc[0]`/`get_text`. -/
  firstPageText : Option String
  ocrRun : OcrRun
deriving DecidableEq

/-- Observable result of one `convert_to_searchable_pdf` call: the
returned value, the output file written (if any), and whether the OCR
phase was entered at all. -/
structure OcrResult where
  ret : Option String
  written : Option String
  ocrAttempted : Bool
deriving DecidableEq

/-- The filename marker `"_OCR_Layer.pdf"`. -/
def ocrMarker : String := "_OCR_Layer.pdf"

/-- Output path of the OCR phase:
`os.path.basename(input_pdf_path).replace('.pdf', '') + "_OCR_Layer.pdf"`. -/
def ocrOutputName (path : String) : String :=
  strRemove (basename path) ".pdf" ++ ocrMarker

/-- Shared OCR phase of both scripts: render page 1 at 300 DPI, run
tesseract, write `<stem>_OCR_Layer.pdf`; on `TesseractNotFoundError` or
any other exception return `None`. -/
def ocrPhase (path : String) (env : OcrEnv) : OcrResult :=
  match env.ocrRun with
  | .success => ⟨some (ocrOutputName path), some (ocrOutputName path), true⟩
  | .tesseractMissing => ⟨none, none, true⟩
  | .failure => ⟨none, none, true⟩

namespace BatchOcr

/-- Model of `convert_to_searchable_pdf` in src/batch_ocr.py: skip
missing files; if the first page reads successfully, has more than 100
stripped characters and the basename lacks the marker, return the input
path; a read exception is caught and falls through; marker-named files
are then skipped; otherwise the OCR phase runs. -/
def convert_to_searchable_pdf (path : String) (env : OcrEnv) : OcrResult :=
  let filename := basename path
  if !env.fileExists then ⟨none, none, false⟩
  else
    let searchable :=
      match env.firstPageText with
      | some t => decide ((pyStrip t).length > 100) && !(strContains filename ocrMarker)
      | none => false
    if searchable then ⟨some path, none, false⟩
    else if strContains filename ocrMarker then ⟨none, none, false⟩
    else ocrPhase path env

end BatchOcr

namespace SingleOcr

/-- Model of `convert_to_searchable_pdf` in src/ocr.py: skip missing
files; if the first page reads successfully and has more than 100
stripped characters, return the input path; a read exception returns
`None` immediately (no OCR); otherwise the OCR phase runs.  There is no
marker check. -/
def convert_to_searchable_pdf (path : String) (env : OcrEnv) : OcrResult :=
  if !env.fileExists then ⟨none, none, false⟩
  else
    match env.firstPageText with
    | some t =>
      if (pyStrip t).length > 100 then ⟨some path, none, false⟩
      else ocrPhase path env
    | none => ⟨none, none, false⟩

end SingleOcr

/-! ## Line-item extractor: src/extract.py

The extractor is embedded as a pure function of the input path and a
`Page` environment describing what pdfplumber would return for the first
page.  `pandas` dataframe manipulation is translated to list operations,
and the two regular expressions are translated to executable matchers
with Python `re` backtracking semantics (see below). -/

/-- An extraction record: one row of the output report
(`Description`, `Total Price`). -/
structure Record where
  description : String
  totalPrice : String
deriving DecidableEq

/-- Negation of the whitespace class (regex backslash-S). -/
def isNonWS (c : Char) : Bool := !isWS c

/-! ### PRICE_REGEX, Strategy B's pattern

```
(.{10,}?)\s+(?:\S+\s+){0,5}\$(\d{1,3}(?:,\d{3})*\.\d{2})\s*$
```
compiled with MULTILINE and IGNORECASE (the latter is irrelevant: the
pattern contains no cased literal).  The matcher below reproduces the
backtracking order of Python `re`:

* `(.{10,}?)` is lazy: description lengths are tried in increasing
  order, and `.` never matches a newline;
* the `\s+` after the description is greedy, but any non-maximal choice
  puts a whitespace character in front of the next atom (`\S+` or `\$`),
  which both reject whitespace, so only the maximal run can succeed and
  the run is consumed deterministically;
* each junk iteration `\S+\s+` is likewise deterministic (a maximal
  non-whitespace run followed by a maximal whitespace run, both
  non-empty, for the same boundary reason), so the greedy `{0,5}`
  reduces to trying the largest feasible iteration count first and
  backing off one iteration at a time;
* inside the price, `\d{1,3}` is greedy (longest first) and
  `(?:,\d{3})*` is a greedy star over a deterministic 4-character
  group, implemented by direct recursion that first extends the star
  and falls back to the continuation;
* `\s*$` is greedy with MULTILINE `$`: the longest whitespace run whose
  endpoint is the end of the text or a position before a newline wins.
-/

/-- Is this remainder a MULTILINE `$` position (end of text or just
before a newline)? -/
def atEOL : List Char → Bool
  | [] => true
  | c :: _ => c = '\n'

/-- Greedy `\s*$`: try consuming `j` whitespace characters, largest
first; return the remainder at the `$` position. -/
def wsThenEOLAux : Nat → List Char → Option (List Char)
  | 0, cs => if atEOL cs then some cs else none
  | j + 1, cs =>
    if atEOL (cs.drop (j + 1)) then some (cs.drop (j + 1))
    else wsThenEOLAux j cs

/-- Greedy `\s*$` starting from the maximal whitespace run. -/
def wsThenEOL (cs : List Char) : Option (List Char) :=
  wsThenEOLAux (runLen isWS cs) cs

/-- The `\.\d{2}\s*$` tail of the price.  Returns the characters that
belong to capture group 2 (the dot and two digits) and the remainder
after `\s*$`. -/
def dotPart : List Char → Option (List Char × List Char)
  | c0 :: a :: b :: rest =>
    if c0 = '.' && isDigitC a && isDigitC b then
      match wsThenEOL rest with
      | some rem => some ([c0, a, b], rem)
      | none => none
    else none
  | _ => none

/-- Greedy `(?:,\d{3})*` followed by `\.\d{2}\s*$`: first try to extend
the star by one `,ddd` group and continue greedily; on failure fall back
to the continuation at the current position.  `fuel` bounds the
recursion (the scanned length suffices). -/
def starThen : Nat → List Char → Option (List Char × List Char)
  | 0, cs => dotPart cs
  | fuel + 1, cs =>
    match cs with
    | c0 :: a :: b :: c :: rest =>
      if c0 = ',' && isDigitC a && isDigitC b && isDigitC c then
        match starThen fuel rest with
        | some (t, rem) => some (c0 :: a :: b :: c :: t, rem)
        | none => dotPart (c0 :: a :: b :: c :: rest)
      else dotPart (c0 :: a :: b :: c :: rest)
    | _ => dotPart cs

/-- Greedy `\d{1,3}`: try `d` leading digits, longest first (at most 3,
at least 1), then the comma/dot tail.  Returns capture group 2 and the
remainder after `\s*$`. -/
def tryIntAux (cs : List Char) : Nat → Option (List Char × List Char)
  | 0 => none
  | d + 1 =>
    match starThen (cs.drop (d + 1)).length (cs.drop (d + 1)) with
    | some (t, rem) => some (cs.take (d + 1) ++ t, rem)
    | none => tryIntAux cs d

/-- The price atom `\$(\d{1,3}(?:,\d{3})*\.\d{2})\s*$`.  Returns capture
group 2 and the remainder after the whole match. -/
def tryPrice : List Char → Option (List Char × List Char)
  | c :: rest =>
    if c = '$' then tryIntAux rest (min 3 (runLen isDigitC rest)) else none
  | [] => none

/-- Remainders after 0, 1, ... junk iterations `\S+\s+` (each iteration
is deterministic, see above), at most `n` of them, in increasing
iteration count. -/
def junkChainAux : Nat → List Char → List (List Char)
  | 0, cs => [cs]
  | n + 1, cs =>
    let a := runLen isNonWS cs
    if a = 0 then [cs]
    else
      let b := runLen isWS (cs.drop a)
      if b = 0 then [cs]
      else cs :: junkChainAux n (cs.drop (a + b))

/-- First success of `f` over a list, in order. -/
def firstSome (f : α → Option β) : List α → Option β
  | [] => none
  | a :: as =>
    match f a with
    | some b => some b
    | none => firstSome f as

/-- Lazy description loop: with the description length `k` growing from
10, require a non-empty whitespace run after it, then try the junk
iteration counts largest-first, then the price atom.  Returns
(group 1, group 2, remainder after the match). -/
def descLoop (cs0 : List Char) : Nat → Nat → Option (List Char × List Char × List Char)
  | _, 0 => none
  | k, fuel + 1 =>
    let rest := cs0.drop k
    let m := runLen isWS rest
    let attempt :=
      if m = 0 then none
      else firstSome tryPrice ((junkChainAux 5 (rest.drop m)).reverse)
    match attempt with
    | some (g2, rem) => some (cs0.take k, g2, rem)
    | none => descLoop cs0 (k + 1) fuel

/-- Attempt a PRICE_REGEX match anchored at the start of `cs0`.  The
description may not contain a newline, so its length is bounded by the
leading newline-free run. -/
def matchAt (cs0 : List Char) : Option (List Char × List Char × List Char) :=
  let kmax := runLen (fun c => !(c = '\n')) cs0
  if kmax < 10 then none
  else descLoop cs0 10 (kmax - 10 + 1)

/-- One PRICE_REGEX match: the two capture groups and the remainder of
the text after the match. -/
structure RMatch where
  g1 : List Char
  g2 : List Char
  rest : List Char
deriving DecidableEq

/-- Python `re.findall` scan: try a match at every position from left to
right; after a match, resume at its end (matches here are never empty,
so this is exactly `re`'s behaviour).  `fuel` bounds the recursion; the
text length suffices because a match always consumes characters. -/
def findallAux : Nat → List Char → List RMatch
  | 0, _ => []
  | fuel + 1, cs =>
    match cs with
    | [] => []
    | c :: cs2 =>
      match matchAt (c :: cs2) with
      | some (g1, g2, rem) => ⟨g1, g2, rem⟩ :: findallAux fuel rem
      | none => findallAux fuel cs2

/-- All PRICE_REGEX matches of a text, in scan order. -/
def findallList (cs : List Char) : List RMatch := findallAux cs.length cs

/-! ### extract_with_regex (Strategy B) -/

/-- Python `'\n'.join`. -/
def joinNl : List (List Char) → List Char
  | [] => []
  | [l] => l
  | l :: ls => l ++ '\n' :: joinNl ls

/-- The text cleaning in `extract_with_regex`: split into lines, strip
each, drop the empty ones, rejoin with newlines. -/
def cleanText (t : String) : List Char :=
  joinNl (((splitOnChar '\n' t.toList).map stripWS).filter (fun l => !l.isEmpty))

/-- Character class `[\d,\.]` of the description-cleaning pattern. -/
def isNumJunk (c : Char) : Bool := isDigitC c || c = ',' || c = '.'

/-- The description cleaning
`re.sub(r'(\s+[\d,\.]{1,10}\s*)$', '', description_raw).strip()`.
Group 1 never contains a newline, so the anchored pattern matches
exactly when the string ends in optional whitespace preceded by a run of
1 to 10 characters from `[\d,\.]` preceded by at least one whitespace
character; the sub removes that tail (the choice of leftmost start
inside the preceding whitespace block is immaterial after the final
strip). -/
def descClean (g1 : List Char) : List Char :=
  let rev := g1.reverse
  let w := runLen isWS rev
  let rest := rev.drop w
  let r := runLen isNumJunk rest
  if decide (1 ≤ r) && decide (r ≤ 10) &&
      (match rest.drop r with
        | c :: _ => isWS c
        | [] => false) then
    stripWS (rest.drop r).reverse
  else stripWS g1

/-- Record built from one match, if its cleaned description is long
enough (`len(description) > 5`). -/
def recordOfMatch (m : RMatch) : Option Record :=
  let description := descClean m.g1
  if description.length > 5 then
    some ⟨String.mk description, String.mk ('$' :: m.g2)⟩
  else none

/-- Model of `extract_with_regex` in src/extract.py (the `filename`
parameter of the source is used only for logging and is omitted): clean
the text, find all PRICE_REGEX matches, keep the substantial ones; the
result is `None` when there is no match or no surviving record. -/
def extract_with_regex (page_text : String) : Option (List Record) :=
  let ms := findallList (cleanText page_text)
  if ms.isEmpty then none
  else
    let data := ms.filterMap recordOfMatch
    if data.isEmpty then none else some data

/-! ### Strategy A: table detection -/

/-- A cell of a pdfplumber table: `None` or a string. -/
abbrev Cell := Option String

/-- A pdfplumber table: rows of cells. -/
abbrev TableData := List (List Cell)

/-- Pandas `astype(str)` on an object cell: `None` becomes `"None"`.
pdfplumber tables are rectangular, so the NaN padding pandas would add
for ragged rows does not arise. -/
def cellStr : Cell → String
  | none => "None"
  | some s => s

/-- Cell of a row at column `i` (missing positions read as null). -/
def cellAt (r : List Cell) (i : Nat) : Cell := r.getD i none

/-- Pandas `str.contains(r'(\d|\$)')`: does the string contain a digit
or a dollar sign? -/
def containsDigitOrDollar (s : String) : Bool :=
  s.toList.any (fun c => isDigitC c || c = '$')

/-- Number of dataframe columns (`df.shape[1]`): the maximal row length
of the original table, header included. -/
def numCols (rows : TableData) : Nat :=
  rows.foldr (fun r n => max r.length n) 0

/-- Does this row's column-`i` cell pass the currency-like test
(after `astype(str)`)? -/
def rowCurrencyAt (i : Nat) (r : List Cell) : Bool :=
  containsDigitOrDollar (cellStr (cellAt r i))

/-- The `currency_count` of column `i` over the header-stripped rows. -/
def colMatchCount (df : TableData) (i : Nat) : Nat :=
  (df.filter (rowCurrencyAt i)).length

/-- The column scan of src/extract.py lines 107-113: walk columns right
to left (`i+1` inspects column `i`), select the first column whose
currency count exceeds half of `len(df)` (`currency_count / len(df) >
0.5`, i.e. `2 * count > len(df)` in exact arithmetic). -/
def priceColScanAux (df : TableData) : Nat → Option Nat
  | 0 => none
  | i + 1 =>
    if 2 * colMatchCount df i > df.length then some i
    else priceColScanAux df i

/-- Description normalisation of Strategy A:
`.str.replace('\n', ' ', regex=False).str.strip()`. -/
def normalizeDesc (s : String) : String :=
  String.mk (stripWS (s.toList.map (fun c => if c = '\n' then ' ' else c)))

/-- Modelled directly from the spec sentence of C2 (for comparison with
the source's scan): select the rightmost column in which more than 50%
of the column's non-null cells match the currency-like pattern. -/
def priceColScanSpec (df : TableData) : Nat → Option Nat
  | 0 => none
  | i + 1 =>
    if 2 * colMatchCount df i > (df.filter (fun r => (cellAt r i).isSome)).length
    then some i
    else priceColScanSpec df i

/-- Strategy A of src/extract.py lines 97-121: given the `extract_table`
result, require at least two rows, drop the header row, pick the price
column by the right-to-left scan, keep the rows whose price cell is
currency-like, and emit (normalised description-cell, price-cell)
records.  The description column index is `max(0, price_col_index - 1)`,
which is truncated subtraction on naturals. -/
def strategyA (table : Option TableData) : Option (List Record) :=
  match table with
  | none => none
  | some rows =>
    if rows.length > 1 then
      let df := rows.tail
      match priceColScanAux df (numCols rows) with
      | some p =>
        some (((df.filter (rowCurrencyAt p)).map (fun r =>
          ⟨normalizeDesc (cellStr (cellAt r (p - 1))), cellStr (cellAt r p)⟩)))
      | none => none
    else none

/-! ### Vendor identification and the full pipeline -/

/-- The fixed crop region `GENERIC_CROP_AREA`. -/
def GENERIC_CROP_AREA : Nat × Nat × Nat × Nat := (20, 250, 590, 780)

/-- Leading token of the basename: text before the first underscore and
the first dot (`os.path.basename(filename).split('_')[0].split('.')[0]`). -/
def leadingToken (filename : String) : String :=
  String.mk ((splitOnChar '.'
    ((splitOnChar '_' (basename filename).toList).headD [])).headD [])

/-- Model of `get_vendor_info` in src/extract.py. -/
def get_vendor_info (filename : String) : String :=
  if strContains filename "Haskins Inc" || strContains filename "Rinker" then
    "Rinker"
  else if strContains filename "Foley" then "Foley"
  else leadingToken filename

/-- Should the page be cropped for this vendor? -/
def use_generic_crop (vendor : String) : Bool :=
  vendor = "Rinker" || vendor = "Foley"

/-- The crop argument passed to table extraction for a given filename:
the fixed region for the crop vendors, no crop otherwise. -/
def cropArg (filename : String) : Option (Nat × Nat × Nat × Nat) :=
  if use_generic_crop (get_vendor_info filename) then some GENERIC_CROP_AREA
  else none

/-- Environment describing the first page of an opened PDF:
`extractTable c` is what `extract_table(table_settings=
GENERIC_STREAM_SETTINGS)` returns on the page cropped to `c` (`none`
argument: the uncropped page), and `pageText` is `page.extract_text()`. -/
structure Page where
  extractTable : Option (Nat × Nat × Nat × Nat) → Option TableData
  pageText : String

/-- The table Strategy A works on for a given input path. -/
def tableUsed (pdf_path : String) (p : Page) : Option TableData :=
  p.extractTable (cropArg (basename pdf_path))

/-- Strategy A's `output_df` for a given input. -/
def strategyAResult (pdf_path : String) (p : Page) : Option (List Record) :=
  strategyA (tableUsed pdf_path p)

/-- Does the pipeline fall back to Strategy B
(`output_df is None or output_df.empty`)? -/
def strategyBRan (pdf_path : String) (p : Page) : Bool :=
  strategyAResult pdf_path p = none || strategyAResult pdf_path p = some []

/-- The final `output_df` after both strategies. -/
def finalDf (pdf_path : String) (p : Page) : Option (List Record) :=
  if strategyBRan pdf_path p then extract_with_regex p.pageText
  else strategyAResult pdf_path p

/-- Model of `extract_line_items_from_pdf` in src/extract.py along its
non-exception path (the page opens and all library calls return):
returns the success flag and, on success, the output file name
`filename.replace('.pdf', '') + "_extracted.md"` with the records
written to it. -/
def extract_line_items_from_pdf (pdf_path : String) (p : Page) :
    Bool × Option (String × List Record) :=
  let filename := basename pdf_path
  match finalDf pdf_path p with
  | some recs =>
    if recs.isEmpty then (false, none)
    else (true, some (strRemove filename ".pdf" ++ "_extracted.md", recs))
  | none => (false, none)

/-! ### Currency format of the claims

The data-model invariant (claim C1) states prices in the format
`$d{1,3}(,ddd)*.dd`; the acceptor below is written from those words. -/

/-- Accepts `(,ddd)*.dd` exactly. -/
def commaTailAccept : List Char → Bool
  | [c0, a, b] => c0 = '.' && isDigitC a && isDigitC b
  | c0 :: a :: b :: c :: rest =>
    c0 = ',' && isDigitC a && isDigitC b && isDigitC c && commaTailAccept rest
  | _ => false

/-- Accepts `d{1,3}(,ddd)*.dd` exactly. -/
def numFormatOK (cs : List Char) : Bool :=
  let g := runLen isDigitC cs
  decide (1 ≤ g) && decide (g ≤ 3) && commaTailAccept (cs.drop g)

/-- Accepts the claimed currency format `$d{1,3}(,ddd)*.dd` exactly. -/
def priceFormatOK (s : String) : Bool :=
  match s.toList with
  | c :: rest => c = '$' && numFormatOK rest
  | [] => false

/-- Does this standalone line match PRICE_REGEX on its own?  (Used to
state C4's per-line reading.) -/
def lineRecord (l : String) : Option Record :=
  match findallList l.toList with
  | [] => none
  | m :: _ => recordOfMatch m

/-! ## Claims C5, C6, C8 -/

/-- C8: for every PDF whose first page reads successfully with stripped
text longer than 100 characters, and whose basename does not carry the
OCR-layer marker, both searchability checkers return the input path
unchanged, write nothing, and attempt no OCR. -/
theorem C8_searchable_skips_ocr (path : String) (env : OcrEnv) (t : String)
    (hex : env.fileExists = true)
    (hread : env.firstPageText = some t)
    (hlen : (pyStrip t).length > 100)
    (hmark : strContains (basename path) ocrMarker = false) :
    BatchOcr.convert_to_searchable_pdf path env = ⟨some path, none, false⟩ ∧
    SingleOcr.convert_to_searchable_pdf path env = ⟨some path, none, false⟩ := by
  constructor
  · unfold BatchOcr.convert_to_searchable_pdf
    simp [hex, hread, hmark, hlen]
  · unfold SingleOcr.convert_to_searchable_pdf
    simp [hex, hread, hlen]

/-- Witness for C8 at a concrete 101-character page text. -/
theorem C8_searchable_skips_ocr_witness :
    BatchOcr.convert_to_searchable_pdf "inv.pdf"
      ⟨true, some (String.mk (List.replicate 101 'a')), OcrRun.success⟩
      = ⟨some "inv.pdf", none, false⟩ := by
  exact (C8_searchable_skips_ocr "inv.pdf"
    ⟨true, some (String.mk (List.replicate 101 'a')), OcrRun.success⟩
    (String.mk (List.replicate 101 'a')) rfl rfl (by decide) (by decide)).1

/-- C5 counterexample: two read-error inputs on which no OCR is attempted.
The single-file tool (src/ocr.py) returns `None` on a first-page read
error without entering the OCR phase, and the batch tool skips a
marker-named file even when its read fails, refuting the claim that every
read failure leads to an OCR attempt by the OCR tool. -/
theorem C5_counterexample :
    SingleOcr.convert_to_searchable_pdf "scan.pdf"
      ⟨true, none, OcrRun.success⟩ = ⟨none, none, false⟩ ∧
    BatchOcr.convert_to_searchable_pdf "doc_OCR_Layer.pdf"
      ⟨true, none, OcrRun.success⟩ = ⟨none, none, false⟩ := by
  decide

/-- C5 amended: on a first-page read error of an existing file, the batch
OCR tool proceeds to attempt OCR whenever the basename lacks the
`_OCR_Layer.pdf` marker (fail-open), while the single-file OCR tool
returns `None` immediately, attempting no OCR and writing nothing. -/
theorem C5_amended_read_error_fail_open (path : String) (env : OcrEnv)
    (hex : env.fileExists = true)
    (hread : env.firstPageText = none) :
    (strContains (basename path) ocrMarker = false →
      (BatchOcr.convert_to_searchable_pdf path env).ocrAttempted = true) ∧
    SingleOcr.convert_to_searchable_pdf path env = ⟨none, none, false⟩ := by
  refine ⟨fun hmark => ?_, ?_⟩
  · unfold BatchOcr.convert_to_searchable_pdf
    simp [hex, hread, hmark]
    unfold ocrPhase
    cases env.ocrRun <;> rfl
  · unfold SingleOcr.convert_to_searchable_pdf
    simp [hex, hread]

/-- Witness for C5 amended at a concrete read-error environment. -/
theorem C5_amended_read_error_fail_open_witness :
    (BatchOcr.convert_to_searchable_pdf "scan2.pdf"
      ⟨true, none, OcrRun.success⟩).ocrAttempted = true := by
  exact (C5_amended_read_error_fail_open "scan2.pdf"
    ⟨true, none, OcrRun.success⟩ rfl rfl).1 (by decide)

/-- C6 counterexample: the single-file OCR tool (src/ocr.py) has no
marker check; on a marker-named file whose first page has at most 100
characters of stripped text, it runs OCR and writes a new output file
`inv_OCR_Layer_OCR_Layer.pdf`, refuting the claim that running the OCR
tool on a `_OCR_Layer.pdf` file is always a skipped no-op. -/
theorem C6_counterexample :
    strContains (basename "inv_OCR_Layer.pdf") ocrMarker = true ∧
    SingleOcr.convert_to_searchable_pdf "inv_OCR_Layer.pdf"
      ⟨true, some "short", OcrRun.success⟩ =
      ⟨some "inv_OCR_Layer_OCR_Layer.pdf",
       some "inv_OCR_Layer_OCR_Layer.pdf", true⟩ := by
  decide

/-- C6 amended: the batch OCR tool never OCRs a marker-named file: for
every input whose basename contains `_OCR_Layer.pdf`, it returns `None`,
writes nothing and attempts no OCR, whatever the read outcome; the
single-file OCR tool skips a marker-named file only when its first page
text strips to more than 100 characters (returning the input path with
no new output). -/
theorem C6_amended_marker_skip (path : String) (env : OcrEnv)
    (hmark : strContains (basename path) ocrMarker = true) :
    BatchOcr.convert_to_searchable_pdf path env = ⟨none, none, false⟩ ∧
    (∀ t, env.fileExists = true → env.firstPageText = some t →
      (pyStrip t).length > 100 →
      SingleOcr.convert_to_searchable_pdf path env = ⟨some path, none, false⟩) := by
  constructor
  · unfold BatchOcr.convert_to_searchable_pdf
    cases hex : env.fileExists
    · simp
    · cases hread : env.firstPageText <;> simp [hmark]
  · intro t hex ht hlen
    unfold SingleOcr.convert_to_searchable_pdf
    simp [hex, ht, hlen]

/-- Witness for C6 amended on a concrete marker-named file. -/
theorem C6_amended_marker_skip_witness :
    BatchOcr.convert_to_searchable_pdf "inv_OCR_Layer.pdf"
      ⟨true, some "short", OcrRun.success⟩ = ⟨none, none, false⟩ := by
  exact (C6_amended_marker_skip "inv_OCR_Layer.pdf"
    ⟨true, some "short", OcrRun.success⟩ (by decide)).1

/-! ## Lemmas about the PRICE_REGEX matcher -/

/-- A run never exceeds the list length. -/
theorem runLen_le_length (p : Char → Bool) :
    ∀ cs : List Char, runLen p cs ≤ cs.length := by
  intro cs
  induction cs with
  | nil => simp [runLen]
  | cons c cs ih =>
    simp only [runLen, List.length_cons]
    split
    · omega
    · omega

/-- Characters inside the run satisfy the run predicate. -/
theorem mem_take_runLen (p : Char → Bool) :
    ∀ (cs : List Char) (k : Nat), k ≤ runLen p cs →
      ∀ c ∈ cs.take k, p c = true := by
  intro cs
  induction cs with
  | nil =>
    intro k hk c hc
    simp at hc
  | cons a cs ih =>
    intro k hk c hc
    cases k with
    | zero => simp at hc
    | succ k =>
      simp only [runLen] at hk
      by_cases hpa : p a = true
      · rw [if_pos hpa] at hk
        simp only [List.take_succ_cons, List.mem_cons] at hc
        rcases hc with rfl | hc
        · exact hpa
        · exact ih k (by omega) c hc
      · rw [if_neg hpa] at hk
        omega

/-- A run over an append stops exactly at the boundary when the left part
satisfies the predicate and the right part starts with a failure. -/
theorem runLen_append_eq (p : Char → Bool) :
    ∀ (l1 l2 : List Char),
      (∀ c ∈ l1, p c = true) →
      (∀ d, l2.head? = some d → p d = false) →
      runLen p (l1 ++ l2) = l1.length := by
  intro l1
  induction l1 with
  | nil =>
    intro l2 _ h2
    cases l2 with
    | nil => simp [runLen]
    | cons d t => simp [runLen, h2 d rfl]
  | cons a l1 ih =>
    intro l2 h1 h2
    have hpa := h1 a (by simp)
    have hih := ih l2 (fun c hc => h1 c (by simp [hc])) h2
    simp only [List.cons_append, runLen, hpa, if_true, List.length_cons]
    show runLen p (l1 ++ l2) + 1 = l1.length + 1
    rw [hih]

/-- Soundness of the greedy `\s*$` search: a success is a drop of the
input positioned at a MULTILINE end of line. -/
theorem wsThenEOLAux_sound :
    ∀ (j : Nat) (cs rem : List Char), wsThenEOLAux j cs = some rem →
      atEOL rem = true ∧ ∃ k, rem = cs.drop k := by
  intro j
  induction j with
  | zero =>
    intro cs rem h
    simp only [wsThenEOLAux] at h
    split at h
    · cases h
      exact ⟨by assumption, 0, by simp⟩
    · cases h
  | succ j ih =>
    intro cs rem h
    simp only [wsThenEOLAux] at h
    split at h
    · cases h
      exact ⟨by assumption, j + 1, rfl⟩
    · exact ih cs rem h

/-- Soundness of the `\.\d{2}\s*$` tail. -/
theorem dotPart_sound :
    ∀ (cs t rem : List Char), dotPart cs = some (t, rem) →
      commaTailAccept t = true ∧ t.head? = some '.' ∧ atEOL rem = true ∧
      rem.length + 3 ≤ cs.length := by
  intro cs t rem h
  match cs with
  | [] => simp [dotPart] at h
  | [c0] => simp [dotPart] at h
  | [c0, a] => simp [dotPart] at h
  | c0 :: a :: b :: rest =>
    simp only [dotPart] at h
    split at h
    case isTrue hcond =>
      cases hw : wsThenEOL rest with
      | none => rw [hw] at h; cases h
      | some rem2 =>
        rw [hw] at h
        simp only [Option.some.injEq, Prod.mk.injEq] at h
        obtain ⟨ht, hrem⟩ := h
        have hc0 : c0 = '.' := by
          have := hcond
          simp only [Bool.and_eq_true, decide_eq_true_eq] at this
          exact this.1.1
        have ha : isDigitC a = true := by
          have := hcond
          simp only [Bool.and_eq_true, decide_eq_true_eq] at this
          exact this.1.2
        have hb : isDigitC b = true := by
          have := hcond
          simp only [Bool.and_eq_true, decide_eq_true_eq] at this
          exact this.2
        obtain ⟨heol, k, hk⟩ := wsThenEOLAux_sound (runLen isWS rest) rest rem2 hw
        refine ⟨?_, ?_, ?_, ?_⟩
        · rw [← ht]
          simp [commaTailAccept, hc0, ha, hb]
        · rw [← ht]
          simp [hc0]
        · rw [← hrem]
          exact heol
        · have hle : rem2.length ≤ rest.length := by
            rw [hk]; simp
          rw [← hrem]
          simp only [List.length_cons]
          omega
    case isFalse => cases h

/-- Soundness of the greedy `(?:,\d{3})*` star followed by the dot tail:
the produced group-2 tail is accepted by the `(,ddd)*.dd` acceptor and
the match ends at an end of line. -/
theorem starThen_sound :
    ∀ (fuel : Nat) (cs t rem : List Char), starThen fuel cs = some (t, rem) →
      commaTailAccept t = true ∧ (t.head? = some '.' ∨ t.head? = some ',') ∧
      atEOL rem = true ∧ rem.length + 3 ≤ cs.length := by
  intro fuel
  induction fuel with
  | zero =>
    intro cs t rem h
    obtain ⟨h1, h2, h3, h4⟩ := dotPart_sound cs t rem h
    exact ⟨h1, Or.inl h2, h3, h4⟩
  | succ fuel ih =>
    intro cs t rem h
    match cs with
    | [] =>
      simp only [starThen] at h
      obtain ⟨h1, h2, h3, h4⟩ := dotPart_sound _ t rem h
      exact ⟨h1, Or.inl h2, h3, h4⟩
    | [c0] =>
      simp only [starThen] at h
      obtain ⟨h1, h2, h3, h4⟩ := dotPart_sound _ t rem h
      exact ⟨h1, Or.inl h2, h3, h4⟩
    | [c0, a] =>
      simp only [starThen] at h
      obtain ⟨h1, h2, h3, h4⟩ := dotPart_sound _ t rem h
      exact ⟨h1, Or.inl h2, h3, h4⟩
    | [c0, a, b] =>
      simp only [starThen] at h
      obtain ⟨h1, h2, h3, h4⟩ := dotPart_sound _ t rem h
      exact ⟨h1, Or.inl h2, h3, h4⟩
    | c0 :: a :: b :: c :: rest =>
      simp only [starThen] at h
      split at h
      case isTrue hcond =>
        cases hs : starThen fuel rest with
        | some pr =>
          obtain ⟨t2, rem2⟩ := pr
          rw [hs] at h
          simp only [Option.some.injEq, Prod.mk.injEq] at h
          obtain ⟨ht, hrem⟩ := h
          obtain ⟨hacc, hhead, heol, hlen⟩ := ih rest t2 rem2 hs
          have hc0 : c0 = ',' := by
            have := hcond
            simp only [Bool.and_eq_true, decide_eq_true_eq] at this
            exact this.1.1.1
          have ha : isDigitC a = true := by
            have := hcond
            simp only [Bool.and_eq_true, decide_eq_true_eq] at this
            exact this.1.1.2
          have hb : isDigitC b = true := by
            have := hcond
            simp only [Bool.and_eq_true, decide_eq_true_eq] at this
            exact this.1.2
          have hc : isDigitC c = true := by
            have := hcond
            simp only [Bool.and_eq_true, decide_eq_true_eq] at this
            exact this.2
          have ht2ne : t2 ≠ [] := by
            intro hnil
            rw [hnil] at hacc
            simp [commaTailAccept] at hacc
          refine ⟨?_, ?_, ?_, ?_⟩
          · rw [← ht]
            match t2, ht2ne with
            | x :: xs, _ =>
              simp [commaTailAccept, hc0, ha, hb, hc]
              simpa using hacc
          · rw [← ht]
            exact Or.inr (by simp [hc0])
          · rw [← hrem]
            exact heol
          · rw [← hrem]
            simp only [List.length_cons]
            omega
        | none =>
          rw [hs] at h
          obtain ⟨h1, h2, h3, h4⟩ := dotPart_sound _ t rem h
          exact ⟨h1, Or.inl h2, h3, h4⟩
      case isFalse =>
        obtain ⟨h1, h2, h3, h4⟩ := dotPart_sound _ t rem h
        exact ⟨h1, Or.inl h2, h3, h4⟩

/-- Soundness of the `\d{1,3}` search: when `d` is bounded by 3 and by
the leading digit run, a success produced from `tryIntAux` is a group 2
in the claimed currency number format, ending at an end of line. -/
theorem tryIntAux_sound :
    ∀ (d : Nat) (cs g2 rem : List Char),
      d ≤ min 3 (runLen isDigitC cs) →
      tryIntAux cs d = some (g2, rem) →
      numFormatOK g2 = true ∧ atEOL rem = true ∧ rem.length + 4 ≤ cs.length := by
  intro d
  induction d with
  | zero =>
    intro cs g2 rem _ h
    simp [tryIntAux] at h
  | succ d ih =>
    intro cs g2 rem hd h
    simp only [tryIntAux] at h
    cases hs : starThen (cs.drop (d + 1)).length (cs.drop (d + 1)) with
    | some pr =>
      obtain ⟨t, rem2⟩ := pr
      rw [hs] at h
      simp only [Option.some.injEq, Prod.mk.injEq] at h
      obtain ⟨hg2, hrem⟩ := h
      subst hg2
      subst hrem
      obtain ⟨hacc, hhead, heol, hlen⟩ :=
        starThen_sound (cs.drop (d + 1)).length (cs.drop (d + 1)) t rem2 hs
      have hrun : d + 1 ≤ runLen isDigitC cs := le_trans hd (min_le_right _ _)
      have hle3 : d + 1 ≤ 3 := le_trans hd (min_le_left _ _)
      have hlencs : d + 1 ≤ cs.length := le_trans hrun (runLen_le_length _ cs)
      have htake : (cs.take (d + 1)).length = d + 1 := by
        simp [List.length_take]
        omega
      have hdig : ∀ c ∈ cs.take (d + 1), isDigitC c = true :=
        mem_take_runLen isDigitC cs (d + 1) hrun
      have hheadbad : ∀ x, t.head? = some x → isDigitC x = false := by
        intro x hx
        rcases hhead with hh | hh
        · rw [hx] at hh
          cases hh
          decide
        · rw [hx] at hh
          cases hh
          decide
      have hrlen : runLen isDigitC (cs.take (d + 1) ++ t) = d + 1 := by
        rw [runLen_append_eq isDigitC _ t hdig hheadbad, htake]
      refine ⟨?_, heol, ?_⟩
      · simp only [numFormatOK, hrlen]
        have hdrop : (cs.take (d + 1) ++ t).drop (d + 1) = t := by
          have := List.drop_left (cs.take (d + 1)) t
          rw [htake] at this
          exact this
        rw [hdrop]
        simp [hacc]
        omega
      · have : (cs.drop (d + 1)).length = cs.length - (d + 1) := by simp
        omega
    | none =>
      rw [hs] at h
      exact ih cs g2 rem (le_trans (Nat.le_succ d) hd) h

/-- Soundness of the full price atom `\$(...)\s*$`. -/
theorem tryPrice_sound :
    ∀ (cs g2 rem : List Char), tryPrice cs = some (g2, rem) →
      numFormatOK g2 = true ∧ atEOL rem = true ∧ rem.length + 5 ≤ cs.length := by
  intro cs g2 rem h
  cases cs with
  | nil => simp [tryPrice] at h
  | cons c rest =>
    simp only [tryPrice] at h
    split at h
    · obtain ⟨h1, h2, h3⟩ := tryIntAux_sound _ rest g2 rem (le_refl _) h
      refine ⟨h1, h2, ?_⟩
      simp only [List.length_cons]
      omega
    · cases h

/-- Junk-chain remainders never grow. -/
theorem junkChainAux_len :
    ∀ (n : Nat) (cs r : List Char), r ∈ junkChainAux n cs → r.length ≤ cs.length := by
  intro n
  induction n with
  | zero =>
    intro cs r hr
    simp [junkChainAux] at hr
    simp [hr]
  | succ n ih =>
    intro cs r hr
    simp only [junkChainAux] at hr
    split at hr
    · simp at hr
      simp [hr]
    · split at hr
      · simp at hr
        simp [hr]
      · simp only [List.mem_cons] at hr
        rcases hr with rfl | hr
        · exact le_refl _
        · have := ih _ r hr
          have hdl : ((cs.drop (runLen isNonWS cs + runLen isWS (cs.drop (runLen isNonWS cs)))).length) ≤ cs.length := by
            simp
          omega

/-- A success of `firstSome` comes from a member of the list. -/
theorem firstSome_mem {α β : Type} (f : α → Option β) :
    ∀ (l : List α) (b : β), firstSome f l = some b → ∃ a ∈ l, f a = some b := by
  intro l
  induction l with
  | nil => intro b h; simp [firstSome] at h
  | cons a l ih =>
    intro b h
    simp only [firstSome] at h
    cases hf : f a with
    | some b2 =>
      rw [hf] at h
      cases h
      exact ⟨a, by simp, hf⟩
    | none =>
      rw [hf] at h
      obtain ⟨a2, ha2, hfa2⟩ := ih b h
      exact ⟨a2, by simp [ha2], hfa2⟩

/-- Soundness of the lazy description loop: a success consists of a
prefix of length at least `k` as group 1, a currency-formatted group 2,
and a remainder at an end of line, with at least `k + 6` characters of
the input consumed before the remainder. -/
theorem descLoop_sound :
    ∀ (fuel : Nat) (cs0 : List Char) (k : Nat) (g1 g2 rem : List Char),
      descLoop cs0 k fuel = some (g1, g2, rem) →
      ∃ k2, k ≤ k2 ∧ k2 < cs0.length ∧ g1 = cs0.take k2 ∧
        numFormatOK g2 = true ∧ atEOL rem = true ∧
        rem.length + k2 + 6 ≤ cs0.length := by
  intro fuel
  induction fuel with
  | zero =>
    intro cs0 k g1 g2 rem h
    simp [descLoop] at h
  | succ fuel ih =>
    intro cs0 k g1 g2 rem h
    simp only [descLoop] at h
    by_cases hm : runLen isWS (cs0.drop k) = 0
    · rw [if_pos hm] at h
      obtain ⟨k2, hk2, hrest⟩ := ih cs0 (k + 1) g1 g2 rem h
      exact ⟨k2, by omega, hrest⟩
    · rw [if_neg hm] at h
      cases hA : firstSome tryPrice
          ((junkChainAux 5 ((cs0.drop k).drop (runLen isWS (cs0.drop k)))).reverse) with
      | some pr =>
        obtain ⟨g2x, remx⟩ := pr
        rw [hA] at h
        simp only [Option.some.injEq, Prod.mk.injEq] at h
        obtain ⟨hg1, hg2, hrem⟩ := h
        subst hg1
        subst hg2
        subst hrem
        obtain ⟨r, hrmem, hrp⟩ := firstSome_mem tryPrice _ _ hA
        rw [List.mem_reverse] at hrmem
        have hrlen := junkChainAux_len 5 _ r hrmem
        obtain ⟨hnum, heol, hplen⟩ := tryPrice_sound r g2x remx hrp
        have hkcs : k < cs0.length := by
          by_contra hge
          push_neg at hge
          have : cs0.drop k = [] := List.drop_eq_nil_of_le hge
          rw [this] at hm
          simp [runLen] at hm
        have hdd : ((cs0.drop k).drop (runLen isWS (cs0.drop k))).length =
            cs0.length - k - runLen isWS (cs0.drop k) := by
          simp
          omega
        refine ⟨k, le_refl _, hkcs, rfl, hnum, heol, ?_⟩
        omega
      | none =>
        rw [hA] at h
        obtain ⟨k2, hk2, hrest⟩ := ih cs0 (k + 1) g1 g2 rem h
        exact ⟨k2, by omega, hrest⟩

/-- Soundness of a single anchored PRICE_REGEX match: group 1 has at
least 10 characters, group 2 is in the currency number format, the
match ends at an end of line, and at least 16 characters are consumed. -/
theorem matchAt_sound :
    ∀ (cs g1 g2 rem : List Char), matchAt cs = some (g1, g2, rem) →
      10 ≤ g1.length ∧ numFormatOK g2 = true ∧ atEOL rem = true ∧
      rem.length + 16 ≤ cs.length := by
  intro cs g1 g2 rem h
  simp only [matchAt] at h
  split at h
  · cases h
  · obtain ⟨k2, hk2, hlt, hg1, hnum, heol, hlen⟩ :=
      descLoop_sound _ cs 10 g1 g2 rem h
    have hg1len : g1.length = k2 := by
      rw [hg1]
      simp [List.length_take]
      omega
    refine ⟨by omega, hnum, heol, by omega⟩

/-- Every match reported by the findall scan satisfies the single-match
soundness properties, and its remainder is strictly shorter than the
scanned text. -/
theorem findallAux_sound :
    ∀ (fuel : Nat) (cs : List Char) (m : RMatch), m ∈ findallAux fuel cs →
      numFormatOK m.g2 = true ∧ atEOL m.rest = true ∧ 10 ≤ m.g1.length ∧
      m.rest.length < cs.length := by
  intro fuel
  induction fuel with
  | zero =>
    intro cs m hm
    simp [findallAux] at hm
  | succ fuel ih =>
    intro cs m hm
    cases cs with
    | nil => simp [findallAux] at hm
    | cons c cs2 =>
      simp only [findallAux] at hm
      cases hM : matchAt (c :: cs2) with
      | some tr =>
        obtain ⟨g1, g2, rem⟩ := tr
        rw [hM] at hm
        simp only [List.mem_cons] at hm
        obtain ⟨h10, hnum, heol, hlen⟩ := matchAt_sound (c :: cs2) g1 g2 rem hM
        rcases hm with rfl | hm
        · exact ⟨hnum, heol, h10, by simp at hlen ⊢; omega⟩
        · obtain ⟨hn, he, hg, hl⟩ := ih rem m hm
          refine ⟨hn, he, hg, ?_⟩
          simp only [List.length_cons] at hlen ⊢
          omega
      | none =>
        rw [hM] at hm
        obtain ⟨hn, he, hg, hl⟩ := ih cs2 m hm
        refine ⟨hn, he, hg, ?_⟩
        simp only [List.length_cons]
        omega

/-- Matches of the findall scan appear at strictly decreasing remainder
lengths: they are pairwise non-overlapping and reported in order of
appearance in the text. -/
theorem findallAux_pairwise :
    ∀ (fuel : Nat) (cs : List Char),
      List.Pairwise (fun a b => b.rest.length < a.rest.length) (findallAux fuel cs) := by
  intro fuel
  induction fuel with
  | zero =>
    intro cs
    simp [findallAux]
  | succ fuel ih =>
    intro cs
    cases cs with
    | nil => simp [findallAux]
    | cons c cs2 =>
      simp only [findallAux]
      cases hM : matchAt (c :: cs2) with
      | some tr =>
        obtain ⟨g1, g2, rem⟩ := tr
        refine List.Pairwise.cons ?_ (ih rem)
        intro b hb
        exact (findallAux_sound fuel rem b hb).2.2.2
      | none => exact ih cs2

/-- Destructuring of a successful Strategy B run: the records are the
filter-map of the match list, and the record list is non-empty. -/
theorem extract_with_regex_some (text : String) (rs : List Record)
    (h : extract_with_regex text = some rs) :
    rs = (findallList (cleanText text)).filterMap recordOfMatch ∧ rs ≠ [] := by
  simp only [extract_with_regex] at h
  cases h1 : (findallList (cleanText text)).isEmpty with
  | true => rw [h1] at h; simp at h
  | false =>
    rw [h1] at h
    simp only [Bool.false_eq_true, if_false] at h
    cases h2 : ((findallList (cleanText text)).filterMap recordOfMatch).isEmpty with
    | true => rw [h2] at h; simp at h
    | false =>
      rw [h2] at h
      simp only [Bool.false_eq_true, if_false, Option.some.injEq] at h
      subst h
      refine ⟨rfl, ?_⟩
      intro hnil
      rw [hnil] at h2
      simp at h2

/-- Right-to-left column scan characterisation: a selected column is in
range, its currency count exceeds half the row count, and every column
to its right fails the threshold; when the scan fails, every column
fails the threshold. -/
theorem priceColScanAux_char (df : TableData) :
    ∀ n : Nat,
      (∀ i, priceColScanAux df n = some i →
        i < n ∧ 2 * colMatchCount df i > df.length ∧
        ∀ j, i < j → j < n → 2 * colMatchCount df j ≤ df.length) ∧
      (priceColScanAux df n = none →
        ∀ j, j < n → 2 * colMatchCount df j ≤ df.length) := by
  intro n
  induction n with
  | zero =>
    constructor
    · intro i h
      simp [priceColScanAux] at h
    · intro _ j hj
      omega
  | succ n ih =>
    constructor
    · intro i h
      simp only [priceColScanAux] at h
      split at h
      case isTrue hc =>
        simp only [Option.some.injEq] at h
        subst h
        refine ⟨by omega, hc, ?_⟩
        intro j hj1 hj2
        omega
      case isFalse hc =>
        obtain ⟨h1, h2, h3⟩ := ih.1 i h
        refine ⟨by omega, h2, ?_⟩
        intro j hj1 hj2
        by_cases hjn : j = n
        · subst hjn
          omega
        · exact h3 j hj1 (by omega)
    · intro h j hj
      simp only [priceColScanAux] at h
      split at h
      case isTrue hc => cases h
      case isFalse hc =>
        by_cases hjn : j = n
        · subst hjn
          omega
        · exact ih.2 h j (by omega)

/-! ## Claim C4 -/

/-- C4 counterexample: on the page text
`"aaaaaaaaaa $1.00\nbb $2.00"` the first line matches the pattern on its
own (producing the record `("aaaaaaaaaa", "$1.00")`), the second line
does not, yet Strategy B emits the single record
`("aaaaaaaaaa", "$2.00")`: the scan's single match spans both lines,
absorbing the first line's price as a junk token, so Strategy B does not
produce one record per matching line. -/
theorem C4_counterexample :
    extract_with_regex "aaaaaaaaaa $1.00\nbb $2.00" =
      some [⟨"aaaaaaaaaa", "$2.00"⟩] ∧
    (splitOnChar '\n' ("aaaaaaaaaa $1.00\nbb $2.00").toList).map String.mk =
      ["aaaaaaaaaa $1.00", "bb $2.00"] ∧
    lineRecord "aaaaaaaaaa $1.00" = some ⟨"aaaaaaaaaa", "$1.00"⟩ ∧
    lineRecord "bb $2.00" = none ∧
    (⟨"aaaaaaaaaa", "$2.00"⟩ : Record) ≠ ⟨"aaaaaaaaaa", "$1.00"⟩ := by
  refine ⟨by decide, by decide, by decide, by decide, by decide⟩

/-- C4 amended: when Strategy B runs, it produces exactly one Extraction
Record per non-overlapping match of the pattern found scanning the
cleaned text left to right — a match may span several consecutive lines,
because the whitespace between tokens also matches newlines — keeping
only matches whose cleaned description exceeds 5 characters; the matches
are pairwise disjoint and reported in top-to-bottom order (strictly
decreasing remainders), each match has a description of at least 10
characters and a price in the currency number format, and each match
ends at a line boundary. -/
theorem C4_amended_match_based (text : String) (rs : List Record)
    (h : extract_with_regex text = some rs) :
    rs = (findallList (cleanText text)).filterMap recordOfMatch ∧
    rs ≠ [] ∧
    List.Pairwise (fun a b => b.rest.length < a.rest.length)
      (findallList (cleanText text)) ∧
    ∀ m ∈ findallList (cleanText text),
      10 ≤ m.g1.length ∧ numFormatOK m.g2 = true ∧ atEOL m.rest = true := by
  obtain ⟨h1, h2⟩ := extract_with_regex_some text rs h
  refine ⟨h1, h2, findallAux_pairwise _ _, ?_⟩
  intro m hm
  obtain ⟨hn, he, hg, _⟩ := findallAux_sound _ _ m hm
  exact ⟨hg, hn, he⟩

/-- Witness for C4 amended at a concrete invoice line. -/
theorem C4_amended_match_based_witness :
    extract_with_regex "Concrete Pump Rental 4 hrs $425.00" =
      some [⟨"Concrete Pump", "$425.00"⟩] ∧
    ([(⟨"Concrete Pump", "$425.00"⟩ : Record)] ≠ []) := by
  have h : extract_with_regex "Concrete Pump Rental 4 hrs $425.00" =
      some [⟨"Concrete Pump", "$425.00"⟩] := by decide
  exact ⟨h, (C4_amended_match_based _ _ h).2.1⟩

/-! ## Claim C1 -/

/-- C1 counterexample: a table whose price column cells merely contain a
digit makes the extractor emit records with an empty description and the
price `"x1"`, which is not in the currency format; so the claimed
invariant fails for Strategy A. -/
theorem C1_counterexample :
    extract_line_items_from_pdf "inv.pdf"
      ⟨fun _ => some [[some "H1", some "H2"], [some "", some "x1"],
        [some "", some "y2"]], ""⟩ =
      (true, some ("inv_extracted.md", [⟨"", "x1"⟩, ⟨"", "y2"⟩])) ∧
    ¬ 6 < ("" : String).length ∧ ¬ 5 < ("" : String).length ∧
    priceFormatOK "x1" = false := by
  refine ⟨by decide, by decide, by decide, by decide⟩

/-- C1 amended: every record emitted by Strategy B has a description
longer than 5 characters and a price matching the currency format
`$d{1,3}(,ddd)*.dd`; records emitted by Strategy A are only guaranteed
a price cell containing a digit or a dollar sign (their description can
be arbitrarily short and their price need not be currency-formatted). -/
theorem C1_amended_per_strategy :
    (∀ (text : String) (rs : List Record), extract_with_regex text = some rs →
      ∀ r ∈ rs, 5 < r.description.length ∧ priceFormatOK r.totalPrice = true) ∧
    (∀ (tbl : Option TableData) (rs : List Record), strategyA tbl = some rs →
      ∀ r ∈ rs, containsDigitOrDollar r.totalPrice = true) := by
  constructor
  · intro text rs h r hr
    obtain ⟨heq, _⟩ := extract_with_regex_some text rs h
    rw [heq] at hr
    rw [List.mem_filterMap] at hr
    obtain ⟨m, hm, hrec⟩ := hr
    have hnum := (findallAux_sound _ _ m hm).1
    simp only [recordOfMatch] at hrec
    split at hrec
    case isTrue hgt =>
      simp only [Option.some.injEq] at hrec
      subst hrec
      refine ⟨by simpa using hgt, ?_⟩
      simp only [priceFormatOK, String.toList, String.mk]
      simp [hnum]
    case isFalse => cases hrec
  · intro tbl rs h r hr
    match tbl with
    | none => simp [strategyA] at h
    | some rows =>
      simp only [strategyA] at h
      split at h
      · cases hscan : priceColScanAux rows.tail (numCols rows) with
        | some pcol =>
          rw [hscan] at h
          simp only [Option.some.injEq] at h
          subst h
          rw [List.mem_map] at hr
          obtain ⟨row, hrow, hrec⟩ := hr
          have hcur := (List.mem_filter.mp hrow).2
          rw [← hrec]
          simpa [rowCurrencyAt] using hcur
        | none =>
          rw [hscan] at h
          cases h
      · cases h

/-- Witness for C1 amended: a Strategy B run with a comma-grouped price
and a Strategy A run whose price cell merely contains a digit. -/
theorem C1_amended_per_strategy_witness :
    extract_with_regex "Excavation work total due $1,250.00" =
      some [⟨"Excavation", "$1,250.00"⟩] ∧
    (5 < ("Excavation" : String).length ∧ priceFormatOK "$1,250.00" = true) ∧
    containsDigitOrDollar "x1" = true := by
  have hB : extract_with_regex "Excavation work total due $1,250.00" =
      some [⟨"Excavation", "$1,250.00"⟩] := by decide
  have hA : strategyA (some [[some "H1", some "H2"], [some "", some "x1"]]) =
      some [⟨"", "x1"⟩] := by decide
  refine ⟨hB, ?_, ?_⟩
  · exact C1_amended_per_strategy.1 _ _ hB ⟨"Excavation", "$1,250.00"⟩ (by decide)
  · exact C1_amended_per_strategy.2 _ _ hA ⟨"", "x1"⟩ (by decide)

/-! ## Claim C2 -/

/-- C2 counterexample: in a two-row table whose right column holds one
currency-like cell and one null, more than 50% of the non-null cells
match (1 of 1), so the claimed rule selects column 1; the code divides
by the total row count (1 of 2, not above one half), selects no column,
and Strategy A emits nothing. -/
theorem C2_counterexample :
    priceColScanAux [[some "ab", some "1$"], [some "cd", none]] 2 = none ∧
    priceColScanSpec [[some "ab", some "1$"], [some "cd", none]] 2 = some 1 ∧
    strategyA (some [[some "h1", some "h2"], [some "ab", some "1$"],
      [some "cd", none]]) = none := by
  refine ⟨by decide, by decide, by decide⟩

/-- C2 amended: the price column is the first column, scanning right to
left, whose count of currency-like cells exceeds half the number of
data rows (null cells are stringified, never match, and stay in the
denominator); columns to its right all fail the threshold, and if every
column fails, no price column is selected and Strategy A emits no
records. -/
theorem C2_amended_scan_denominator (df : TableData) (n : Nat) :
    (∀ i, priceColScanAux df n = some i →
      i < n ∧ 2 * colMatchCount df i > df.length ∧
      ∀ j, i < j → j < n → 2 * colMatchCount df j ≤ df.length) ∧
    (priceColScanAux df n = none →
      ∀ j, j < n → 2 * colMatchCount df j ≤ df.length) ∧
    (∀ rows : TableData, priceColScanAux rows.tail (numCols rows) = none →
      strategyA (some rows) = none) := by
  refine ⟨(priceColScanAux_char df n).1, (priceColScanAux_char df n).2, ?_⟩
  intro rows h
  simp only [strategyA]
  split
  · rw [h]
  · rfl

/-- Witness for C2 amended at a concrete one-row table. -/
theorem C2_amended_scan_denominator_witness :
    priceColScanAux [[some "a", some "1"]] 2 = some 1 ∧
    (1 < 2 ∧ 2 * colMatchCount [[some "a", some "1"]] 1 >
      ([[some "a", some "1"]] : TableData).length) := by
  have h : priceColScanAux [[some "a", some "1"]] 2 = some 1 := by decide
  have := (C2_amended_scan_denominator [[some "a", some "1"]] 2).1 1 h
  exact ⟨h, this.1, this.2.1⟩

/-! ## Claim C3 -/

/-- C3: when the table used on the page has at least 2 rows and the
column scan identifies a price column, Strategy A produces a non-empty
result, so Strategy B never runs and the final result is Strategy A's;
moreover, on any input on which Strategy B runs, the final result is
exactly Strategy B's (never a combination). -/
theorem C3_strategyA_precedence (pdf_path : String) (p : Page) (rows : TableData)
    (htab : tableUsed pdf_path p = some rows)
    (hlen : rows.length > 1)
    (hcol : priceColScanAux rows.tail (numCols rows) ≠ none) :
    strategyBRan pdf_path p = false ∧
    finalDf pdf_path p = strategyAResult pdf_path p ∧
    (∀ (q : String) (pg : Page), strategyBRan q pg = true →
      finalDf q pg = extract_with_regex pg.pageText) := by
  cases hscan : priceColScanAux rows.tail (numCols rows) with
  | none => exact absurd hscan hcol
  | some pcol =>
    have hAr : strategyAResult pdf_path p =
        some ((rows.tail.filter (rowCurrencyAt pcol)).map (fun r =>
          ⟨normalizeDesc (cellStr (cellAt r (pcol - 1))), cellStr (cellAt r pcol)⟩)) := by
      unfold strategyAResult
      rw [htab]
      simp only [strategyA]
      rw [if_pos hlen, hscan]
    have hcnt := ((priceColScanAux_char rows.tail (numCols rows)).1 pcol hscan).2.1
    have hfilter : rows.tail.filter (rowCurrencyAt pcol) ≠ [] := by
      intro hnil
      have hz : colMatchCount rows.tail pcol = 0 := by
        unfold colMatchCount
        rw [hnil]
        rfl
      omega
    have hne : (rows.tail.filter (rowCurrencyAt pcol)).map (fun r =>
        (⟨normalizeDesc (cellStr (cellAt r (pcol - 1))),
          cellStr (cellAt r pcol)⟩ : Record)) ≠ [] := by
      intro hmapnil
      exact hfilter (List.map_eq_nil_iff.mp hmapnil)
    have hbr : strategyBRan pdf_path p = false := by
      unfold strategyBRan
      rw [hAr]
      simp [hne]
    refine ⟨hbr, ?_, ?_⟩
    · unfold finalDf
      rw [hbr]
      simp
    · intro q pg hq
      unfold finalDf
      rw [hq]
      simp

/-- Witness for C3 at a concrete two-row table. -/
theorem C3_strategyA_precedence_witness :
    strategyBRan "w.pdf" ⟨fun _ => some [[some "H"], [some "5"]], "t"⟩ = false := by
  exact (C3_strategyA_precedence "w.pdf"
    ⟨fun _ => some [[some "H"], [some "5"]], "t"⟩ [[some "H"], [some "5"]]
    (by decide) (by decide) (by decide)).1

/-! ## Claim C7 -/

/-- C7: the description column of Strategy A is the column immediately
left of the selected price column, clamped at 0: when the price column
is column 0, the price column itself doubles as the description column;
when it is `i > 0`, the description column is `i - 1`. -/
theorem C7_desc_col_clamp (rows : TableData) (i : Nat)
    (hlen : rows.length > 1)
    (hcol : priceColScanAux rows.tail (numCols rows) = some i) :
    strategyA (some rows) =
      some ((rows.tail.filter (rowCurrencyAt i)).map (fun r =>
        ⟨normalizeDesc (cellStr (cellAt r (if i = 0 then 0 else i - 1))),
         cellStr (cellAt r i)⟩)) := by
  have hidx : (if i = 0 then 0 else i - 1) = i - 1 := by
    cases i <;> simp
  rw [hidx]
  simp only [strategyA]
  rw [if_pos hlen, hcol]

/-- Witness for C7 on a one-column table: the price column is column 0
and the emitted description is the price cell itself. -/
theorem C7_desc_col_clamp_witness :
    strategyA (some [[some "H"], [some "5"]]) = some [⟨"5", "5"⟩] := by
  have h := C7_desc_col_clamp [[some "H"], [some "5"]] 0 (by decide) (by decide)
  rw [h]
  decide

/-! ## Claim C9 -/

/-- C9: when Strategy A yields no records (no result or an empty one)
and Strategy B also yields nothing, the extractor returns `False` and
writes no output file. -/
theorem C9_failure_no_output (pdf_path : String) (p : Page)
    (hA : strategyAResult pdf_path p = none ∨ strategyAResult pdf_path p = some [])
    (hB : extract_with_regex p.pageText = none) :
    extract_line_items_from_pdf pdf_path p = (false, none) := by
  have hbr : strategyBRan pdf_path p = true := by
    unfold strategyBRan
    rcases hA with h | h <;> simp [h]
  unfold extract_line_items_from_pdf finalDf
  rw [hbr]
  simp [hB]

/-- Witness for C9 on a page with no table and empty text. -/
theorem C9_failure_no_output_witness :
    extract_line_items_from_pdf "no_data.pdf" ⟨fun _ => none, ""⟩ = (false, none) := by
  exact C9_failure_no_output "no_data.pdf" ⟨fun _ => none, ""⟩
    (Or.inl (by decide)) (by decide)

/-! ## Claim C10 -/

/-- C10 counterexample: the filename `"Rinker Foley.pdf"` contains
`'Foley'` but the extractor assigns it vendor `"Rinker"` (the
Haskins/Rinker branch is checked first), refuting the claim as stated
for filenames containing both tokens. -/
theorem C10_counterexample :
    strContains "Rinker Foley.pdf" "Foley" = true ∧
    get_vendor_info "Rinker Foley.pdf" = "Rinker" ∧
    ("Rinker" : String) ≠ "Foley" := by
  refine ⟨by decide, by decide, by decide⟩

/-- C10 amended: filenames containing `'Haskins Inc'` or `'Rinker'` get
vendor `"Rinker"`; filenames containing `'Foley'` but neither of the
former two tokens get vendor `"Foley"`; all other filenames get the
leading token of the basename; and the page is cropped to
`(20, 250, 590, 780)` exactly for the vendor values `"Rinker"` and
`"Foley"`, with no crop otherwise. -/
theorem C10_amended_vendor_crop :
    (∀ fn : String, (strContains fn "Haskins Inc" = true ∨
        strContains fn "Rinker" = true) →
      get_vendor_info fn = "Rinker") ∧
    (∀ fn : String, strContains fn "Haskins Inc" = false →
      strContains fn "Rinker" = false → strContains fn "Foley" = true →
      get_vendor_info fn = "Foley") ∧
    (∀ fn : String, strContains fn "Haskins Inc" = false →
      strContains fn "Rinker" = false → strContains fn "Foley" = false →
      get_vendor_info fn = leadingToken fn) ∧
    (∀ fn : String, cropArg fn = some (20, 250, 590, 780) ↔
      (get_vendor_info fn = "Rinker" ∨ get_vendor_info fn = "Foley")) ∧
    (∀ fn : String, cropArg fn = none ↔
      ¬(get_vendor_info fn = "Rinker" ∨ get_vendor_info fn = "Foley")) ∧
    (∀ (pdf_path : String) (p : Page),
      tableUsed pdf_path p = p.extractTable (cropArg (basename pdf_path))) := by
  refine ⟨?_, ?_, ?_, ?_, ?_, ?_⟩
  · intro fn h
    unfold get_vendor_info
    rcases h with h | h <;> simp [h]
  · intro fn h1 h2 h3
    unfold get_vendor_info
    simp [h1, h2, h3]
  · intro fn h1 h2 h3
    unfold get_vendor_info
    simp [h1, h2, h3]
  · intro fn
    constructor
    · intro hc
      by_contra hn
      push_neg at hn
      simp [cropArg, use_generic_crop, hn.1, hn.2] at hc
    · intro hv
      rcases hv with h | h <;>
        simp [cropArg, use_generic_crop, h, GENERIC_CROP_AREA]
  · intro fn
    constructor
    · intro hc
      intro hv
      rcases hv with h | h <;>
        simp [cropArg, use_generic_crop, h, GENERIC_CROP_AREA] at hc
    · intro hn
      push_neg at hn
      simp [cropArg, use_generic_crop, hn.1, hn.2]
  · intro pdf_path p
    rfl

/-- Witness for C10 amended at concrete filenames. -/
theorem C10_amended_vendor_crop_witness :
    get_vendor_info "Haskins Inc 2024.pdf" = "Rinker" ∧
    get_vendor_info "Foley_7.pdf" = "Foley" ∧
    get_vendor_info "Acme_invoice_01.pdf" = leadingToken "Acme_invoice_01.pdf" ∧
    cropArg "Foley_7.pdf" = some (20, 250, 590, 780) := by
  refine ⟨C10_amended_vendor_crop.1 _ (Or.inl (by decide)),
    C10_amended_vendor_crop.2.1 _ (by decide) (by decide) (by decide),
    C10_amended_vendor_crop.2.2.1 _ (by decide) (by decide) (by decide),
    (C10_amended_vendor_crop.2.2.2.1 _).mpr
      (Or.inr (C10_amended_vendor_crop.2.1 _ (by decide) (by decide) (by decide)))⟩
